import Mathlib

/-!
Shallow embedding of the avatar synthesis pipeline of this repository
(file src/Wav2Lip/wav2lip.py, class Wav2LipAAG) and proofs about it.

Conventions used throughout:
- a Frame is modelled as a total pixel function of type Nat -> Nat -> Int
  (row index first, matching frame[y, x] in the source);
- the 2-D audio feature map mel of shape (F, T) is modelled by its list of
  T columns (slicing mel[:, a:b] only ever slices the time axis, so the
  fixed F feature rows are abstracted into the column type);
- Python slicing l[a:] with a possibly negative start is modelled by
  pyDropFrom, reproducing the clamping semantics of CPython;
- the float expression int(i * (80.0 / fps)) of line 198/201 is modelled
  by exact integer arithmetic i * 80 / fps (floor division), which is the
  arithmetic contract stated for the Aligner in the specification;
- numpy integer boxes are nonnegative after the clamping of lines 96-99,
  and the cast of the float mean back into the int64 array of line 54
  truncates toward zero, which on nonnegative data is floor division,
  so box coordinates are modelled as Nat with Nat division.
-/

abbrev Pix : Type := Nat → Nat → Int

def pix0 : Pix := fun _ _ => 0

/-- Coordinates as stored by datagen, line 107: the tuple (y1, y2, x1, x2). -/
structure Box where
  y1 : Nat
  y2 : Nat
  x1 : Nat
  x2 : Nat
deriving DecidableEq

def box0 : Box := ⟨0, 0, 0, 0⟩

/-- One detected bounding box as appended on line 101: [x1, y1, x2, y2],
with all four coordinates nonnegative after the clamping of lines 96-99. -/
structure NBox where
  x1 : Nat
  y1 : Nat
  x2 : Nat
  y2 : Nat
deriving DecidableEq

def nbConst (v : Nat) : NBox := ⟨v, v, v, v⟩

/-- Python slicing l[a:] for an arbitrary (possibly negative) integer start:
for a nonnegative start it drops a elements (clamped at the length), and for
a negative start it starts at len(l) + a, clamped at zero. -/
def pyDropFrom (l : List α) (a : Int) : List α :=
  if 0 ≤ a then l.drop a.toNat else l.drop (l.length - (-a).toNat)

/-! ### Audio Feature Aligner: the mel chunking loop of generate_avatar,
lines 197-206.  mel_idx_multiplier = 80.0 / fps and mel_step_size = 16.
The loop produces windows mel[:, start : start + 16] with
start = int(i * 80 / fps) while start + 16 <= T, then appends the final
window mel[:, T - 16 :] and stops.  The fuel argument strictly exceeds the
number of iterations whenever 0 < fps (proved below), so the fuel never
runs out on the inputs the theorems quantify over.  For fps = 0 the Python
source raises ZeroDivisionError on line 198; every theorem about melChunks
assumes 0 < fps. -/

def melChunksAux (fps : Nat) (mel : List α) : Nat → Nat → List (List α)
  | 0, _ => []
  | fuel + 1, i =>
    if mel.length < i * 80 / fps + 16 then
      [pyDropFrom mel ((mel.length : Int) - 16)]
    else
      (mel.drop (i * 80 / fps)).take 16 :: melChunksAux fps mel fuel (i + 1)

def melChunks (fps : Nat) (mel : List α) : List (List α) :=
  melChunksAux fps mel (fps * mel.length + 1) 0

/-! ### Face Locator: get_smoothened_boxes, lines 48-55.
The loop mutates the boxes array in place: boxes[i] is overwritten with the
mean of a window read from the partially updated array.  smoothIter runs the
body for the index range [i, i + fuel). -/

/-- The window read on lines 50-53: boxes[len(boxes) - T :] when
i + T > len(boxes), and boxes[i : i + T] otherwise. -/
def smoothWindow (boxes : List NBox) (T i : Nat) : List NBox :=
  if boxes.length < i + T then pyDropFrom boxes ((boxes.length : Int) - (T : Int))
  else (boxes.drop i).take T

/-- Componentwise numpy mean over the window (axis=0), with the cast back
into the int64 array truncating: on nonnegative data this is floor division
by the window length. -/
def boxMean (ws : List NBox) : NBox :=
  { x1 := (ws.map NBox.x1).sum / ws.length
    y1 := (ws.map NBox.y1).sum / ws.length
    x2 := (ws.map NBox.x2).sum / ws.length
    y2 := (ws.map NBox.y2).sum / ws.length }

/-- One iteration of the loop body, line 54: boxes[i] = np.mean(window, axis=0). -/
def smoothStep (boxes : List NBox) (T i : Nat) : List NBox :=
  boxes.set i (boxMean (smoothWindow boxes T i))

def smoothIter (T : Nat) : List NBox → Nat → Nat → List NBox
  | boxes, _, 0 => boxes
  | boxes, i, fuel + 1 => smoothIter T (smoothStep boxes T i) (i + 1) fuel

/-- get_smoothened_boxes of lines 48-55: run the in-place loop body for
every index i in range(len(boxes)). -/
def get_smoothened_boxes (boxes : List NBox) (T : Nat) : List NBox :=
  smoothIter T boxes 0 boxes.length

/-! ### Face Locator: the batch loop of face_detect, lines 62-83.
The detection collaborator is an opaque function from an image chunk to an
optional prediction list; the value none models a RuntimeError raised by
the detector (resource exhaustion). -/

/-- Partition images into consecutive chunks images[i : i + b] for
i = 0, b, 2b, ... (line 67).  A zero step is never reached from the start
value 64: Python range raises ValueError for step 0. -/
def getChunks : List α → Nat → List (List α)
  | _, 0 => []
  | [], _ + 1 => []
  | x :: xs, b + 1 => ((x :: xs).take (b + 1)) :: getChunks (xs.drop b) (b + 1)
termination_by l _ => l.length
decreasing_by simp only [List.length_drop, List.length_cons]; omega

/-- One full pass over the sequence at a fixed batch size (lines 65-72):
the per-chunk predictions are concatenated via predictions.extend; if any
chunk raises, the whole pass yields none and the partial predictions list
is discarded. -/
def runPass (det : List α → Option (List β)) (imgs : List α) (b : Nat) :
    Option (List β) :=
  ((getChunks imgs b).mapM det).map List.flatten

def oomFatalMsg : String :=
  "Image too big to run face detection on GPU. Please use the --resize_factor argument"

/-- The while-loop of lines 64-83: try a full pass at batch size b; on
failure raise the fatal error if b == 1 (lines 74-77), otherwise restart
the whole pass at batch size b // 2 (line 78).  Batch size 0 is unreachable
from any positive start; Python range would raise ValueError there. -/
def faceDetectFrom (det : List α → Option (List β)) (imgs : List α) (b : Nat) :
    Except String (List β) :=
  if hb : b = 0 then Except.error "range() arg 3 must not be zero"
  else
    match runPass det imgs b with
    | some preds => Except.ok preds
    | none =>
      if b = 1 then Except.error oomFatalMsg
      else faceDetectFrom det imgs (b / 2)
termination_by b
decreasing_by exact Nat.div_lt_self (Nat.pos_of_ne_zero hb) (by omega)

/-- The sequence of batch sizes at which a pass is started, in order. -/
def faceDetectAttempts (det : List α → Option (List β)) (imgs : List α) (b : Nat) :
    List Nat :=
  if hb : b = 0 then []
  else
    b :: (match runPass det imgs b with
      | some _ => []
      | none =>
        if b = 1 then [] else faceDetectAttempts det imgs (b / 2))
termination_by b
decreasing_by exact Nat.div_lt_self (Nat.pos_of_ne_zero hb) (by omega)

/-! ### Batch Assembler: datagen, lines 114-167. -/

/-- Configuration constants fixed in the constructor, lines 26-43. -/
def wav2lipFps : Nat := 25

def wav2lip_batch_size : Nat := 256

def wav2lipStatic : Bool := true

def mel_step_size : Nat := 16

def face_det_batch_size : Nat := 64

/-- Index selection of line 130: idx = 0 if static else i % len(frames). -/
def datagenIdx (static : Bool) (numFrames i : Nat) : Nat :=
  if static then 0 else i % numFrames

/-- One item assembled by the loop body, lines 129-139: the face crop and
coordinates from face_det_results[idx], the frame copy frames[idx].copy(),
and the mel window m.  The copy makes frame an independent value. -/
structure MItem (μ : Type) where
  face : Pix
  coords : Box
  frame : Pix
  mel : μ

def mkMItem (frames : List Pix) (dets : List (Pix × Box)) (static : Bool)
    (i : Nat) (m : μ) : MItem μ :=
  { face := (dets.getD (datagenIdx static frames.length i) (pix0, box0)).1
    coords := (dets.getD (datagenIdx static frames.length i) (pix0, box0)).2
    frame := frames.getD (datagenIdx static frames.length i) pix0
    mel := m }

def datagenItemsAux (static : Bool) (frames : List Pix) (dets : List (Pix × Box)) :
    Nat → List μ → List (MItem μ)
  | _, [] => []
  | i, m :: ms => mkMItem frames dets static i m :: datagenItemsAux static frames dets (i + 1) ms

/-- The item stream of datagen, one item per mel window, built by the
enumerate loop of line 129. -/
def datagenItems (static : Bool) (frames : List Pix) (dets : List (Pix × Box))
    (mels : List μ) : List (MItem μ) :=
  datagenItemsAux static frames dets 0 mels

/-- The batching discipline of lines 141-167: accumulate items, yield a
batch as soon as the accumulator reaches wav2lip_batch_size (the check
len(img_batch) >= C fires exactly at C because items arrive one at a time),
and yield the final nonempty partial batch after the loop. -/
def batchify (C : Nat) : List α → List α → List (List α)
  | acc, [] => if acc.isEmpty then [] else [acc]
  | acc, x :: xs =>
    if C ≤ (acc ++ [x]).length then (acc ++ [x]) :: batchify C [] xs
    else batchify C (acc ++ [x]) xs

/-! ### Compositor: lines 235-239.
pred is the synthesized crop already rescaled by cv2.resize to the box
extent (x2 - x1, y2 - y1); the assignment frame[y1:y2, x1:x2] = pred
overwrites exactly the box region of the frame value. -/

def writeBox (frame pred : Pix) (b : Box) : Pix :=
  fun y x =>
    if b.y1 ≤ y ∧ y < b.y2 ∧ b.x1 ≤ x ∧ x < b.x2 then
      pred (y - b.y1) (x - b.x1)
    else frame y x

/-- Heap model of the compositing loop.  The heap holds frame buffers at
addresses; the original source frames occupy the low addresses and each
item of datagen owns a fresh buffer (the frames[idx].copy() of line 131)
at its own address.  The loop of lines 235-239 mutates the buffer at
address a in place and moves on; ps are the rescaled predictions and bs
the recorded coordinates, consumed in order like the zip of line 235. -/
def compositeFrom : List Pix → Nat → List Pix → List Box → List Pix
  | heap, _, [], _ => heap
  | heap, _, _ :: _, [] => heap
  | heap, a, p :: ps, b :: bs =>
    compositeFrom (heap.set a (writeBox (heap.getD a pix0) p b)) (a + 1) ps bs

/-! ### generate_avatar, lines 191-245, with the external collaborators as
parameters: dets is the face detection result list, preds gives the
rescaled synthesized crop for each output index. -/

def generate_avatar_chunks (mel : List α) : List (List α) :=
  melChunks wav2lipFps mel

/-- Lines 208-209: full_frames = [frames_array][: len(mel_chunks)]. -/
def generate_avatar_full_frames (mel : List α) (frames_array : Pix) : List Pix :=
  ([frames_array]).take (generate_avatar_chunks mel).length

def generate_avatar_items (mel : List α) (frames_array : Pix)
    (dets : List (Pix × Box)) : List (MItem (List α)) :=
  datagenItems wav2lipStatic (generate_avatar_full_frames mel frames_array) dets
    (generate_avatar_chunks mel)

/-- The frames_list assembled by lines 216-239: items are consumed batch by
batch in order, and each item contributes one composited frame. -/
def generate_avatar_frames (mel : List α) (frames_array : Pix)
    (dets : List (Pix × Box)) (preds : Nat → Pix) : List Pix :=
  (((batchify wav2lip_batch_size [] (generate_avatar_items mel frames_array dets)).flatten).enum).map
    (fun p => writeBox p.2.frame (preds p.1) p.2.coords)

/-- The Sequencer duration of line 243: len(frames_list) / fps. -/
def generate_avatar_duration (mel : List α) (frames_array : Pix)
    (dets : List (Pix × Box)) (preds : Nat → Pix) : ℚ :=
  ((generate_avatar_frames mel frames_array dets preds).length : ℚ) / (wav2lipFps : ℚ)

/-! ### Generic list helper lemmas -/

lemma getD_set_self (l : List α) (i : Nat) (v d : α) (h : i < l.length) :
    (l.set i v).getD i d = v := by
  simp [List.getD_eq_getElem?_getD, List.getElem?_set_self, h]

lemma getD_set_ne (l : List α) (i j : Nat) (v d : α) (h : i ≠ j) :
    (l.set i v).getD j d = l.getD j d := by
  simp [List.getD_eq_getElem?_getD, List.getElem?_set_ne h]

lemma getD_append_lt (l1 l2 : List α) (j : Nat) (d : α) (h : j < l1.length) :
    (l1 ++ l2).getD j d = l1.getD j d := by
  simp [List.getD_eq_getElem?_getD, List.getElem?_append, h]

lemma getD_append_add (l1 l2 : List α) (i : Nat) (d : α) :
    (l1 ++ l2).getD (l1.length + i) d = l2.getD i d := by
  simp [List.getD_eq_getElem?_getD, List.getElem?_append_right]

lemma getD_default_irrel (l : List α) (i : Nat) (d1 d2 : α) (h : i < l.length) :
    l.getD i d1 = l.getD i d2 := by
  rw [List.getD_eq_getElem l d1 h, List.getD_eq_getElem l d2 h]

lemma getD_map_lt (f : α → β) (l : List α) (i : Nat) (d : β) (d0 : α)
    (h : i < l.length) : (l.map f).getD i d = f (l.getD i d0) := by
  rw [List.getD_eq_getElem _ d (by simpa using h), List.getD_eq_getElem _ d0 h]
  simp

/-! ### Temporal smoothing lemmas -/

lemma smoothStep_length (boxes : List NBox) (T i : Nat) :
    (smoothStep boxes T i).length = boxes.length := by
  simp [smoothStep]

lemma smoothIter_length (T : Nat) :
    ∀ (fuel : Nat) (boxes : List NBox) (i : Nat),
      (smoothIter T boxes i fuel).length = boxes.length := by
  intro fuel
  induction fuel with
  | zero => intro boxes i; rfl
  | succ f ih => intro boxes i; rw [smoothIter, ih, smoothStep_length]

lemma smoothIter_getD_lt (T : Nat) :
    ∀ (fuel : Nat) (boxes : List NBox) (i j : Nat) (d : NBox), j < i →
      (smoothIter T boxes i fuel).getD j d = boxes.getD j d := by
  intro fuel
  induction fuel with
  | zero => intros; rfl
  | succ f ih =>
    intro boxes i j d hj
    rw [smoothIter, ih _ _ _ _ (by omega)]
    simp only [smoothStep]
    exact getD_set_ne _ _ _ _ _ (by omega)

lemma smoothIter_split (T : Nat) :
    ∀ (f g : Nat) (boxes : List NBox) (i : Nat),
      smoothIter T boxes i (f + g) = smoothIter T (smoothIter T boxes i f) (i + f) g := by
  intro f
  induction f with
  | zero => intro g boxes i; rw [Nat.zero_add]; rfl
  | succ f ih =>
    intro g boxes i
    have h1 : f + 1 + g = (f + g) + 1 := by omega
    rw [h1, smoothIter, smoothIter, ih]
    have h2 : i + (f + 1) = i + 1 + f := by omega
    rw [h2]

lemma smoothIter_succ_right (T : Nat) :
    ∀ (f : Nat) (boxes : List NBox) (i : Nat),
      smoothIter T boxes i (f + 1) = smoothStep (smoothIter T boxes i f) T (i + f) := by
  intro f
  induction f with
  | zero => intro boxes i; rfl
  | succ f ih =>
    intro boxes i
    rw [smoothIter, ih]
    have h2 : i + (f + 1) = i + 1 + f := by omega
    rw [smoothIter, h2]

/-- After the full loop, the entry at index i holds the mean of the window
that the loop body read at step i from the partially updated array. -/
lemma smoothIter_full_getD (T : Nat) (boxes : List NBox) (n i : Nat)
    (hn : n = boxes.length) (hi : i < n) :
    (smoothIter T boxes 0 n).getD i (nbConst 0) =
      boxMean (smoothWindow (smoothIter T boxes 0 i) T i) := by
  have hsplit : n = (i + 1) + (n - (i + 1)) := by omega
  rw [hsplit, smoothIter_split]
  rw [smoothIter_getD_lt T _ _ _ _ _ (by omega)]
  rw [smoothIter_succ_right, Nat.zero_add]
  simp only [smoothStep]
  exact getD_set_self _ _ _ _ (by rw [smoothIter_length]; omega)

lemma smoothIter_drop (T : Nat) :
    ∀ (fuel : Nat) (boxes : List NBox) (i k : Nat), i + fuel ≤ k →
      (smoothIter T boxes i fuel).drop k = boxes.drop k := by
  intro fuel
  induction fuel with
  | zero => intros; rfl
  | succ f ih =>
    intro boxes i k hk
    rw [smoothIter, ih _ _ _ (by omega)]
    simp only [smoothStep]
    exact List.drop_set_of_lt _ _ (by omega)

lemma set_replicate_self (c : α) : ∀ (n i : Nat),
    (List.replicate n c).set i c = List.replicate n c := by
  intro n
  induction n with
  | zero => intro i; rfl
  | succ m ih =>
    intro i
    cases i with
    | zero => simp [List.replicate_succ]
    | succ j => simp [List.replicate_succ, ih j]

lemma boxMean_replicate (k : Nat) (c : NBox) (hk : 0 < k) :
    boxMean (List.replicate k c) = c := by
  cases c with
  | mk x1 y1 x2 y2 =>
    simp [boxMean, List.map_replicate, List.sum_replicate, smul_eq_mul,
      Nat.mul_div_cancel_left _ hk]

lemma smoothWindow_replicate (n T i : Nat) (c : NBox) (hi : i < n) (hT : 0 < T) :
    ∃ k, 0 < k ∧ smoothWindow (List.replicate n c) T i = List.replicate k c := by
  unfold smoothWindow pyDropFrom
  by_cases h : (List.replicate n c).length < i + T
  · rw [if_pos h]
    by_cases h2 : (0 : Int) ≤ ((List.replicate n c).length : Int) - (T : Int)
    · rw [if_pos h2]
      rw [List.drop_replicate]
      refine ⟨n - (((n : Int) - (T : Int)).toNat), by simp at h h2 ⊢; omega, ?_⟩
      simp
    · rw [if_neg h2]
      rw [List.drop_replicate]
      refine ⟨n - ((List.replicate n c).length - (-(((List.replicate n c).length : Int) - (T : Int))).toNat),
        by simp at h h2 ⊢; omega, rfl⟩
  · rw [if_neg h]
    rw [List.drop_replicate, List.take_replicate]
    refine ⟨min T (n - i), by simp at h; omega, rfl⟩

lemma smoothStep_replicate (n T i : Nat) (c : NBox) (hi : i < n) (hT : 0 < T) :
    smoothStep (List.replicate n c) T i = List.replicate n c := by
  obtain ⟨k, hk, hw⟩ := smoothWindow_replicate n T i c hi hT
  rw [smoothStep, hw, boxMean_replicate k c hk, set_replicate_self]

lemma smoothIter_replicate (n : Nat) (c : NBox) :
    ∀ (fuel i : Nat), i + fuel ≤ n →
      smoothIter 5 (List.replicate n c) i fuel = List.replicate n c := by
  intro fuel
  induction fuel with
  | zero => intros; rfl
  | succ f ih =>
    intro i hif
    rw [smoothIter, smoothStep_replicate n 5 i c (by omega) (by omega)]
    exact ih (i + 1) (by omega)

/-- C9: applying the temporal smoothing of get_smoothened_boxes (window
width T = 5) to any sequence of identical bounding boxes returns the same
sequence unchanged. -/
theorem smoothing_constant_unchanged (n : Nat) (c : NBox) :
    get_smoothened_boxes (List.replicate n c) 5 = List.replicate n c := by
  unfold get_smoothened_boxes
  rw [List.length_replicate]
  exact smoothIter_replicate n c n 0 (by omega)

/-- Boxes used to exhibit the in-place tail behavior of the smoothing loop. -/
def demoBoxes : List NBox :=
  [nbConst 0, nbConst 100, nbConst 0, nbConst 0, nbConst 0, nbConst 0]

/-- C6 (counterexample): with six boxes and T = 5, index 2 is a tail index
(2 + 5 > 6).  The claim predicts the mean of the last five boxes of the
INPUT array, namely nbConst 20, at every tail index; the code instead reads
the window from the partially updated array, putting nbConst 4 at index 2,
and different tail indices receive different values (indices 4 and 5 get
nbConst 5 and nbConst 6). -/
theorem smoothing_tail_window_cex :
    ((get_smoothened_boxes demoBoxes 5).getD 2 (nbConst 0) ≠
      boxMean (pyDropFrom demoBoxes ((6 : Int) - 5))) ∧
    (get_smoothened_boxes demoBoxes 5).getD 4 (nbConst 0) ≠
      (get_smoothened_boxes demoBoxes 5).getD 5 (nbConst 0) := by
  decide

/-- C6 (amended): for every index i with i + 5 <= n the output box is the
truncated componentwise mean of the ORIGINAL boxes[i : i+5] (those window
positions are still untouched when step i runs); for every tail index
(i + 5 > n) the output box is the truncated mean of the last five entries
of the PARTIALLY SMOOTHED array as it stands when step i runs, so tail
indices generally receive distinct values. -/
theorem smoothing_inplace (boxes : List NBox) (i : Nat) (hi : i < boxes.length) :
    (i + 5 ≤ boxes.length →
      (get_smoothened_boxes boxes 5).getD i (nbConst 0) =
        boxMean ((boxes.drop i).take 5)) ∧
    (boxes.length < i + 5 →
      (get_smoothened_boxes boxes 5).getD i (nbConst 0) =
        boxMean (pyDropFrom (smoothIter 5 boxes 0 i) ((boxes.length : Int) - 5))) := by
  have hlen := smoothIter_length 5 i boxes 0
  constructor
  · intro hle
    rw [get_smoothened_boxes, smoothIter_full_getD 5 boxes boxes.length i rfl hi]
    rw [smoothWindow]
    simp only [hlen]
    rw [if_neg (by omega), smoothIter_drop 5 i boxes 0 i (by omega)]
  · intro hgt
    rw [get_smoothened_boxes, smoothIter_full_getD 5 boxes boxes.length i rfl hi]
    rw [smoothWindow]
    simp only [hlen]
    rw [if_pos (by omega)]
    norm_num

/-- Witness for smoothing_inplace at the concrete tail index 2 of demoBoxes. -/
theorem smoothing_inplace_witness :
    (2 + 5 ≤ 6 →
      (get_smoothened_boxes demoBoxes 5).getD 2 (nbConst 0) =
        boxMean ((demoBoxes.drop 2).take 5)) ∧
    (6 < 2 + 5 →
      (get_smoothened_boxes demoBoxes 5).getD 2 (nbConst 0) =
        boxMean (pyDropFrom (smoothIter 5 demoBoxes 0 2) ((6 : Int) - 5))) :=
  smoothing_inplace demoBoxes 2 (by decide)

/-! ### Aligner lemmas -/

/-- The loop guard of line 202 in arithmetic form: the final window fires
at index i exactly when i has reached ceil((T - 15) * fps / 80). -/
lemma melGuard_iff (fps L i : Nat) (hfps : 0 < fps) (hT : 16 ≤ L) :
    (L < i * 80 / fps + 16) ↔ ((L - 15) * fps + 79) / 80 ≤ i := by
  have f1 : (L - 15 ≤ i * 80 / fps) ↔ ((L - 15) * fps ≤ i * 80) :=
    Nat.le_div_iff_mul_le hfps
  generalize hM : (L - 15) * fps = M at f1 ⊢
  generalize hs : i * 80 / fps = s at f1 ⊢
  omega

lemma melChunksAux_length (fps : Nat) (mel : List α) (hfps : 0 < fps)
    (hT : 16 ≤ mel.length) :
    ∀ (fuel i : Nat),
      ((mel.length - 15) * fps + 79) / 80 - i + 1 ≤ fuel →
      (melChunksAux fps mel fuel i).length =
        ((mel.length - 15) * fps + 79) / 80 - i + 1 := by
  intro fuel
  induction fuel with
  | zero => intro i h; omega
  | succ f ih =>
    intro i h
    rw [melChunksAux]
    by_cases hg : mel.length < i * 80 / fps + 16
    · rw [if_pos hg]
      have hKi := (melGuard_iff fps mel.length i hfps hT).mp hg
      simp only [List.length_singleton]
      omega
    · rw [if_neg hg]
      have hiK : ¬ (((mel.length - 15) * fps + 79) / 80 ≤ i) :=
        fun hKi => hg ((melGuard_iff fps mel.length i hfps hT).mpr hKi)
      rw [List.length_cons, ih (i + 1) (by omega)]
      omega

lemma melChunks_length (fps : Nat) (mel : List α) (hfps : 0 < fps)
    (hT : 16 ≤ mel.length) :
    (melChunks fps mel).length = ((mel.length - 15) * fps + 79) / 80 + 1 := by
  rw [melChunks]
  have hM : (mel.length - 15) * fps ≤ fps * mel.length := by
    rw [Nat.mul_comm fps mel.length]
    exact Nat.mul_le_mul_right _ (by omega)
  have hfuel : ((mel.length - 15) * fps + 79) / 80 - 0 + 1 ≤ fps * mel.length + 1 := by
    generalize hMM : (mel.length - 15) * fps = M at hM ⊢
    generalize hN : fps * mel.length = N at hM ⊢
    omega
  rw [melChunksAux_length fps mel hfps hT (fps * mel.length + 1) 0 hfuel]
  omega

lemma melChunksAux_width (fps : Nat) (mel : List α) (hT : 16 ≤ mel.length) :
    ∀ (fuel i : Nat), ∀ c ∈ melChunksAux fps mel fuel i, c.length = 16 := by
  intro fuel
  induction fuel with
  | zero => intro i c hc; simp [melChunksAux] at hc
  | succ f ih =>
    intro i c hc
    rw [melChunksAux] at hc
    by_cases hg : mel.length < i * 80 / fps + 16
    · rw [if_pos hg] at hc
      simp only [List.mem_singleton] at hc
      subst hc
      rw [pyDropFrom, if_pos (by omega)]
      rw [List.length_drop]
      omega
    · rw [if_neg hg] at hc
      rcases List.mem_cons.mp hc with h | h
      · subst h
        rw [List.length_take, List.length_drop]
        omega
      · exact ih (i + 1) c h

/-- C1 (counterexample): at T = 16, fps = 25 the code emits a full window at
index 0 (since 0 + 16 <= 16) and then the final window, 2 windows total,
while the claimed count ceil((16 - 16) * 25 / 80) + 1 is 1. -/
theorem aligner_count_cex :
    (melChunks 25 (List.range 16)).length ≠ ((16 - 16) * 25 + 79) / 80 + 1 := by
  decide

/-- C1 (amended): for 0 < fps and T >= 16 the Aligner emits exactly
ceil((T - 15) * fps / 80) + 1 windows, each of width exactly 16.  The loop
emits a full window for every i with floor(i * 80 / fps) + 16 <= T plus one
final window, which exceeds the claimed count ceil((T - 16) * fps / 80) + 1
exactly when (T - 16) * fps is a multiple of 80. -/
theorem aligner_count (fps : Nat) (mel : List α) (hfps : 0 < fps)
    (hT : 16 ≤ mel.length) :
    (melChunks fps mel).length = ((mel.length - 15) * fps + 79) / 80 + 1 ∧
    ∀ c ∈ melChunks fps mel, c.length = 16 :=
  ⟨melChunks_length fps mel hfps hT,
   fun c hc => melChunksAux_width fps mel hT _ _ c hc⟩

/-- Witness for aligner_count at fps = 25 and a 16-column feature map. -/
theorem aligner_count_witness :
    (melChunks 25 (List.range 16)).length = ((16 - 15) * 25 + 79) / 80 + 1 ∧
    ∀ c ∈ melChunks 25 (List.range 16), c.length = 16 :=
  aligner_count 25 (List.range 16) (by decide) (by decide)

/-- C7 (counterexample): with T = 10 < 16 and fps = 25 the Aligner emits
exactly one window, but that window is mel[:, -6:], the last 6 columns: it
has width 6, not 16, and is not the full feature map. -/
theorem aligner_short_cex :
    (melChunks 25 (List.range 10)).length = 1 ∧
    (melChunks 25 (List.range 10)).getD 0 [] = [4, 5, 6, 7, 8, 9] ∧
    ((melChunks 25 (List.range 10)).getD 0 []).length ≠ 16 ∧
    (melChunks 25 (List.range 10)).getD 0 [] ≠ List.range 10 := by
  decide

/-- C7 (amended): if T < 16 the Aligner emits exactly one window, the
Python slice mel[:, T - 16 :]: the last 16 - T columns when 2T >= 16, or
the whole map when 2T < 16; its width is min T (16 - T), and it is never
padded to width 16. -/
theorem aligner_short_audio (fps : Nat) (mel : List α) (hfps : 0 < fps)
    (hT : mel.length < 16) :
    melChunks fps mel = [pyDropFrom mel ((mel.length : Int) - 16)] ∧
    (pyDropFrom mel ((mel.length : Int) - 16)).length =
      min mel.length (16 - mel.length) := by
  constructor
  · rw [melChunks, melChunksAux]
    have h0 : 0 * 80 / fps = 0 := by simp
    rw [h0, if_pos (by omega)]
  · rw [pyDropFrom, if_neg (by omega)]
    rw [List.length_drop]
    omega

/-- Witness for aligner_short_audio at fps = 25 and a 10-column feature map. -/
theorem aligner_short_audio_witness :
    melChunks 25 (List.range 10) = [pyDropFrom (List.range 10) ((10 : Int) - 16)] ∧
    (pyDropFrom (List.range 10) ((10 : Int) - 16)).length = min 10 (16 - 10) :=
  aligner_short_audio 25 (List.range 10) (by decide) (by decide)

/-! ### Face detection batch loop lemmas -/

lemma getChunks_cons (l : List α) (b : Nat) (hb : 0 < b) (hl : l ≠ []) :
    getChunks l b = l.take b :: getChunks (l.drop b) b := by
  cases b with
  | zero => omega
  | succ b =>
    cases l with
    | nil => simp at hl
    | cons x xs =>
      rw [getChunks, List.drop_succ_cons]

lemma getChunks_flatten (b : Nat) (hb : 0 < b) :
    ∀ (n : Nat) (l : List α), l.length ≤ n → (getChunks l b).flatten = l := by
  intro n
  induction n with
  | zero =>
    intro l hl
    have h0 : l = [] := List.eq_nil_of_length_eq_zero (by omega)
    subst h0
    cases b with
    | zero => omega
    | succ b => simp [getChunks]
  | succ n ih =>
    intro l hl
    cases l with
    | nil =>
      cases b with
      | zero => omega
      | succ b => simp [getChunks]
    | cons x xs =>
      rw [getChunks_cons _ b hb (by simp), List.flatten_cons,
        ih ((x :: xs).drop b) (by rw [List.length_drop]; simp at hl ⊢; omega)]
      exact List.take_append_drop b (x :: xs)

lemma getChunks_all_le (b : Nat) (hb : 0 < b) :
    ∀ (n : Nat) (l : List α), l.length ≤ n → ∀ c ∈ getChunks l b, c.length ≤ b := by
  intro n
  induction n with
  | zero =>
    intro l hl c hc
    have h0 : l = [] := List.eq_nil_of_length_eq_zero (by omega)
    subst h0
    cases b with
    | zero => omega
    | succ b => simp [getChunks] at hc
  | succ n ih =>
    intro l hl c hc
    cases l with
    | nil =>
      cases b with
      | zero => omega
      | succ b => simp [getChunks] at hc
    | cons x xs =>
      rw [getChunks_cons _ b hb (by simp)] at hc
      rcases List.mem_cons.mp hc with h | h
      · subst h; rw [List.length_take]; omega
      · exact ih ((x :: xs).drop b) (by rw [List.length_drop]; simp at hl ⊢; omega) c h

/-- The detector of the C3 scenario: raises (none) on any chunk of more
than 8 images and returns one prediction per image (modelled as the chunk
itself) on chunks of at most 8 images. -/
def det8 : List Nat → Option (List Nat) :=
  fun l => if l.length ≤ 8 then some l else none

/-- A detector that raises a resource-exhaustion error on every chunk. -/
def detNone : List Nat → Option (List Nat) := fun _ => none

lemma mapM_det8_some : ∀ (L : List (List Nat)), (∀ c ∈ L, c.length ≤ 8) →
    L.mapM det8 = some L := by
  intro L
  induction L with
  | nil => intro _; rfl
  | cons c cs ih =>
    intro h
    rw [List.mapM_cons]
    have hc : det8 c = some c := by
      unfold det8; rw [if_pos (h c (by simp))]
    rw [hc, ih (fun d hd => h d (by simp [hd]))]
    rfl

lemma runPass_det8_8 (l : List Nat) : runPass det8 l 8 = some l := by
  rw [runPass,
    mapM_det8_some (getChunks l 8) (getChunks_all_le 8 (by omega) l.length l (le_refl _))]
  simp [getChunks_flatten 8 (by omega) l.length l (le_refl _)]

lemma runPass_det8_none (l : List Nat) (b : Nat) (hb : 8 < b) (hl : 8 < l.length) :
    runPass det8 l b = none := by
  have hne : l ≠ [] := by intro h; subst h; simp at hl
  rw [runPass, getChunks_cons l b (by omega) hne, List.mapM_cons]
  have hfail : det8 (l.take b) = none := by
    unfold det8
    rw [if_neg]
    rw [List.length_take]
    omega
  rw [hfail]
  rfl

lemma runPass_detNone_none (l : List Nat) (b : Nat) (hb : 0 < b) (hl : l ≠ []) :
    runPass detNone l b = none := by
  rw [runPass, getChunks_cons l b hb hl, List.mapM_cons]
  rfl

lemma faceDetectFrom_ok (det : List α → Option (List β)) (imgs : List α) (b : Nat)
    (r : List β) (hb : b ≠ 0) (h : runPass det imgs b = some r) :
    faceDetectFrom det imgs b = Except.ok r := by
  rw [faceDetectFrom, dif_neg hb, h]

lemma faceDetectFrom_fail_step (det : List α → Option (List β)) (imgs : List α)
    (b : Nat) (hb : 2 ≤ b) (h : runPass det imgs b = none) :
    faceDetectFrom det imgs b = faceDetectFrom det imgs (b / 2) := by
  rw [faceDetectFrom, dif_neg (by omega : ¬ b = 0), h]
  rw [if_neg (by omega : ¬ b = 1)]

lemma faceDetectFrom_one_fail (det : List α → Option (List β)) (imgs : List α)
    (h : runPass det imgs 1 = none) :
    faceDetectFrom det imgs 1 = Except.error oomFatalMsg := by
  rw [faceDetectFrom, dif_neg (by omega : ¬ (1 : Nat) = 0), h]
  rfl

lemma faceDetectAttempts_ok (det : List α → Option (List β)) (imgs : List α)
    (b : Nat) (r : List β) (hb : b ≠ 0) (h : runPass det imgs b = some r) :
    faceDetectAttempts det imgs b = [b] := by
  rw [faceDetectAttempts, dif_neg hb, h]

lemma faceDetectAttempts_fail_step (det : List α → Option (List β)) (imgs : List α)
    (b : Nat) (hb : 2 ≤ b) (h : runPass det imgs b = none) :
    faceDetectAttempts det imgs b = b :: faceDetectAttempts det imgs (b / 2) := by
  rw [faceDetectAttempts, dif_neg (by omega : ¬ b = 0), h]
  rw [if_neg (by omega : ¬ b = 1)]

lemma faceDetectAttempts_one_fail (det : List α → Option (List β)) (imgs : List α)
    (h : runPass det imgs 1 = none) :
    faceDetectAttempts det imgs 1 = [1] := by
  rw [faceDetectAttempts, dif_neg (by omega : ¬ (1 : Nat) = 0), h]
  rfl

/-- C3: starting at the configured batch size 64 against a detector that
raises resource exhaustion on chunks larger than 8 images and succeeds on
chunks of at most 8, the attempted batch sizes are exactly 64, 32, 16, 8
and the final result is the complete prediction list of the successful
pass at size 8 (partial predictions of failed passes are discarded, since
each retry reruns the whole pass from the first image); a detector that
raises even at batch size 1 makes the loop attempt 64, 32, 16, 8, 4, 2, 1
and then propagate the fatal error; and in general any failed pass at a
size b of at least 2 restarts the whole detection at b / 2. -/
theorem face_detect_halving (n : Nat) (hn : 8 < n) :
    faceDetectAttempts det8 (List.range n) 64 = [64, 32, 16, 8] ∧
    faceDetectFrom det8 (List.range n) 64 = Except.ok (List.range n) ∧
    faceDetectFrom detNone (List.range n) 64 = Except.error oomFatalMsg ∧
    faceDetectAttempts detNone (List.range n) 64 = [64, 32, 16, 8, 4, 2, 1] ∧
    (∀ (det : List Nat → Option (List Nat)) (b : Nat), 2 ≤ b →
      runPass det (List.range n) b = none →
      faceDetectFrom det (List.range n) b = faceDetectFrom det (List.range n) (b / 2)) := by
  have hlen : 8 < (List.range n).length := by simpa using hn
  have hne : (List.range n) ≠ [] := by
    simp only [ne_eq, List.range_eq_nil]
    omega
  have h64 := runPass_det8_none (List.range n) 64 (by omega) hlen
  have h32 := runPass_det8_none (List.range n) 32 (by omega) hlen
  have h16 := runPass_det8_none (List.range n) 16 (by omega) hlen
  have h8 := runPass_det8_8 (List.range n)
  have n64 := runPass_detNone_none (List.range n) 64 (by omega) hne
  have n32 := runPass_detNone_none (List.range n) 32 (by omega) hne
  have n16 := runPass_detNone_none (List.range n) 16 (by omega) hne
  have n8 := runPass_detNone_none (List.range n) 8 (by omega) hne
  have n4 := runPass_detNone_none (List.range n) 4 (by omega) hne
  have n2 := runPass_detNone_none (List.range n) 2 (by omega) hne
  have n1 := runPass_detNone_none (List.range n) 1 (by omega) hne
  refine ⟨?_, ?_, ?_, ?_, ?_⟩
  · rw [faceDetectAttempts_fail_step det8 _ 64 (by omega) h64]
    rw [show (64 : Nat) / 2 = 32 from rfl,
      faceDetectAttempts_fail_step det8 _ 32 (by omega) h32]
    rw [show (32 : Nat) / 2 = 16 from rfl,
      faceDetectAttempts_fail_step det8 _ 16 (by omega) h16]
    rw [show (16 : Nat) / 2 = 8 from rfl,
      faceDetectAttempts_ok det8 _ 8 (List.range n) (by omega) h8]
  · rw [faceDetectFrom_fail_step det8 _ 64 (by omega) h64]
    rw [show (64 : Nat) / 2 = 32 from rfl,
      faceDetectFrom_fail_step det8 _ 32 (by omega) h32]
    rw [show (32 : Nat) / 2 = 16 from rfl,
      faceDetectFrom_fail_step det8 _ 16 (by omega) h16]
    rw [show (16 : Nat) / 2 = 8 from rfl,
      faceDetectFrom_ok det8 _ 8 (List.range n) (by omega) h8]
  · rw [faceDetectFrom_fail_step detNone _ 64 (by omega) n64]
    rw [show (64 : Nat) / 2 = 32 from rfl,
      faceDetectFrom_fail_step detNone _ 32 (by omega) n32]
    rw [show (32 : Nat) / 2 = 16 from rfl,
      faceDetectFrom_fail_step detNone _ 16 (by omega) n16]
    rw [show (16 : Nat) / 2 = 8 from rfl,
      faceDetectFrom_fail_step detNone _ 8 (by omega) n8]
    rw [show (8 : Nat) / 2 = 4 from rfl,
      faceDetectFrom_fail_step detNone _ 4 (by omega) n4]
    rw [show (4 : Nat) / 2 = 2 from rfl,
      faceDetectFrom_fail_step detNone _ 2 (by omega) n2]
    rw [show (2 : Nat) / 2 = 1 from rfl, faceDetectFrom_one_fail detNone _ n1]
  · rw [faceDetectAttempts_fail_step detNone _ 64 (by omega) n64]
    rw [show (64 : Nat) / 2 = 32 from rfl,
      faceDetectAttempts_fail_step detNone _ 32 (by omega) n32]
    rw [show (32 : Nat) / 2 = 16 from rfl,
      faceDetectAttempts_fail_step detNone _ 16 (by omega) n16]
    rw [show (16 : Nat) / 2 = 8 from rfl,
      faceDetectAttempts_fail_step detNone _ 8 (by omega) n8]
    rw [show (8 : Nat) / 2 = 4 from rfl,
      faceDetectAttempts_fail_step detNone _ 4 (by omega) n4]
    rw [show (4 : Nat) / 2 = 2 from rfl,
      faceDetectAttempts_fail_step detNone _ 2 (by omega) n2]
    rw [show (2 : Nat) / 2 = 1 from rfl, faceDetectAttempts_one_fail detNone _ n1]
  · intro det b hb h
    exact faceDetectFrom_fail_step det _ b hb h

/-- Witness for face_detect_halving on a sequence of 9 frames. -/
theorem face_detect_halving_witness :
    faceDetectAttempts det8 (List.range 9) 64 = [64, 32, 16, 8] ∧
    faceDetectFrom det8 (List.range 9) 64 = Except.ok (List.range 9) ∧
    faceDetectFrom detNone (List.range 9) 64 = Except.error oomFatalMsg ∧
    faceDetectAttempts detNone (List.range 9) 64 = [64, 32, 16, 8, 4, 2, 1] ∧
    (∀ (det : List Nat → Option (List Nat)) (b : Nat), 2 ≤ b →
      runPass det (List.range 9) b = none →
      faceDetectFrom det (List.range 9) b = faceDetectFrom det (List.range 9) (b / 2)) :=
  face_detect_halving 9 (by decide)

/-! ### Batch Assembler lemmas -/

lemma mem_dropLast_cons {β : Type u} (y b : β) (L : List β)
    (hb : b ∈ (y :: L).dropLast) : (b = y ∧ L ≠ []) ∨ b ∈ L.dropLast := by
  cases L with
  | nil => simp at hb
  | cons z t =>
    have he : (y :: z :: t).dropLast = y :: (z :: t).dropLast := rfl
    rw [he] at hb
    rcases List.mem_cons.mp hb with h | h
    · exact Or.inl ⟨h, by simp⟩
    · exact Or.inr h

lemma batchify_spec (C : Nat) (hC : 0 < C) :
    ∀ (l acc : List α), acc.length < C →
      (batchify C acc l).flatten = acc ++ l ∧
      (∀ b ∈ (batchify C acc l).dropLast, b.length = C) ∧
      (∀ b ∈ batchify C acc l, b ≠ []) := by
  intro l
  induction l with
  | nil =>
    intro acc hacc
    cases acc with
    | nil => simp [batchify]
    | cons a as => simp [batchify]
  | cons x xs ih =>
    intro acc hacc
    rw [batchify]
    by_cases hfull : C ≤ (acc ++ [x]).length
    · rw [if_pos hfull]
      have hlen : (acc ++ [x]).length = C := by
        rw [List.length_append] at hfull ⊢
        simp at hfull ⊢
        omega
      obtain ⟨ihj, ihd, ihn⟩ := ih [] (by simpa using hC)
      refine ⟨?_, ?_, ?_⟩
      · rw [List.flatten_cons, ihj]
        simp
      · intro b hb
        rcases mem_dropLast_cons _ b _ hb with ⟨hb1, _⟩ | hb2
        · rw [hb1, hlen]
        · exact ihd b hb2
      · intro b hb
        rcases List.mem_cons.mp hb with h | h
        · subst h
          intro hemp
          rw [hemp] at hlen
          simp at hlen
          omega
        · exact ihn b h
    · rw [if_neg hfull]
      have hacc2 : (acc ++ [x]).length < C := by
        rw [List.length_append] at hfull ⊢
        simp at hfull ⊢
        omega
      obtain ⟨ihj, ihd, ihn⟩ := ih (acc ++ [x]) hacc2
      refine ⟨?_, ihd, ihn⟩
      rw [ihj]
      simp

lemma datagenItemsAux_length (static : Bool) (frames : List Pix)
    (dets : List (Pix × Box)) :
    ∀ (mels : List μ) (i : Nat),
      (datagenItemsAux static frames dets i mels).length = mels.length := by
  intro mels
  induction mels with
  | nil => intro i; rfl
  | cons m ms ih =>
    intro i
    rw [datagenItemsAux, List.length_cons, List.length_cons, ih]

/-- C5: for every input item sequence the Assembler yields batches such
that every batch except possibly the last has size exactly the capacity C,
every batch (in particular the last) is nonempty, the concatenation of the
batches is the item sequence itself (order preserved), and the total item
count equals the number of audio feature windows supplied. -/
theorem assembler_batches {μ : Type} (C : Nat) (hC : 0 < C) (static : Bool)
    (frames : List Pix) (dets : List (Pix × Box)) (mels : List μ) :
    (batchify C [] (datagenItems static frames dets mels)).flatten =
      datagenItems static frames dets mels ∧
    (∀ b ∈ (batchify C [] (datagenItems static frames dets mels)).dropLast,
      b.length = C) ∧
    (∀ b ∈ batchify C [] (datagenItems static frames dets mels), b ≠ []) ∧
    ((batchify C [] (datagenItems static frames dets mels)).flatten).length =
      mels.length := by
  obtain ⟨hj, hd, hn⟩ :=
    batchify_spec C hC (datagenItems static frames dets mels) [] (by simpa using hC)
  rw [List.nil_append] at hj
  refine ⟨hj, hd, hn, ?_⟩
  rw [hj, datagenItems, datagenItemsAux_length]

/-- Witness for assembler_batches with capacity 2 and three mel windows. -/
theorem assembler_batches_witness :
    (batchify 2 [] (datagenItems true [] [] [0, 1, 2])).flatten =
      datagenItems true [] [] [0, 1, 2] ∧
    (∀ b ∈ (batchify 2 [] (datagenItems true [] [] [0, 1, 2])).dropLast,
      b.length = 2) ∧
    (∀ b ∈ batchify 2 [] (datagenItems true [] [] [0, 1, 2]), b ≠ []) ∧
    ((batchify 2 [] (datagenItems true [] [] [0, 1, 2])).flatten).length = 3 :=
  assembler_batches 2 (by decide) true [] [] [0, 1, 2]

lemma mkMItem_static (frames : List Pix) (dets : List (Pix × Box)) (i : Nat)
    (m : μ) :
    mkMItem frames dets true i m =
      ⟨(dets.getD 0 (pix0, box0)).1, (dets.getD 0 (pix0, box0)).2,
        frames.getD 0 pix0, m⟩ := rfl

lemma datagenItemsAux_static_getD (frames : List Pix) (dets : List (Pix × Box))
    (dm : μ) :
    ∀ (mels : List μ) (i0 k : Nat), k < mels.length →
      (datagenItemsAux true frames dets i0 mels).getD k ⟨pix0, box0, pix0, dm⟩ =
        ⟨(dets.getD 0 (pix0, box0)).1, (dets.getD 0 (pix0, box0)).2,
          frames.getD 0 pix0, mels.getD k dm⟩ := by
  intro mels
  induction mels with
  | nil => intro i0 k hk; simp at hk
  | cons m ms ih =>
    intro i0 k hk
    cases k with
    | zero =>
      rw [datagenItemsAux, mkMItem_static]
      rfl
    | succ j =>
      rw [datagenItemsAux, List.getD_cons_succ, List.getD_cons_succ]
      exact ih (i0 + 1) j (by simpa using hk)

/-- C8: for a single static reference frame f and N audio feature windows,
datagen produces exactly N model input items, and the item at every index k
is built from the face crop and bounding box of detection index 0 and the
frame copy of frame index 0, paired with the k-th mel window. -/
theorem assembler_static_items {μ : Type} (f : Pix) (dets : List (Pix × Box))
    (mels : List μ) (dm : μ) (k : Nat) (hk : k < mels.length) :
    (datagenItems true [f] dets mels).length = mels.length ∧
    (datagenItems true [f] dets mels).getD k ⟨pix0, box0, pix0, dm⟩ =
      ⟨(dets.getD 0 (pix0, box0)).1, (dets.getD 0 (pix0, box0)).2, f,
        mels.getD k dm⟩ := by
  constructor
  · rw [datagenItems, datagenItemsAux_length]
  · rw [datagenItems, datagenItemsAux_static_getD [f] dets dm mels 0 k hk]
    rfl

/-- Witness for assembler_static_items with three mel windows at index 1. -/
theorem assembler_static_items_witness :
    (datagenItems true [pix0] [] [10, 20, 30]).length = 3 ∧
    (datagenItems true [pix0] [] [10, 20, 30]).getD 1 ⟨pix0, box0, pix0, 0⟩ =
      ⟨(([] : List (Pix × Box)).getD 0 (pix0, box0)).1,
        (([] : List (Pix × Box)).getD 0 (pix0, box0)).2, pix0,
        ([10, 20, 30] : List Nat).getD 1 0⟩ :=
  assembler_static_items pix0 [] [10, 20, 30] 0 1 (by decide)

/-! ### generate_avatar lemmas -/

lemma melChunksAux_ne_nil (fps : Nat) (mel : List α) (fuel i : Nat) :
    melChunksAux fps mel (fuel + 1) i ≠ [] := by
  rw [melChunksAux]
  by_cases hg : mel.length < i * 80 / fps + 16
  · rw [if_pos hg]; simp
  · rw [if_neg hg]; simp

lemma melChunks_length_pos (fps : Nat) (mel : List α) :
    0 < (melChunks fps mel).length := by
  rw [melChunks]
  exact List.length_pos.mpr (melChunksAux_ne_nil fps mel (fps * mel.length) 0)

lemma datagenItemsAux_static_mem (frames : List Pix) (dets : List (Pix × Box)) :
    ∀ (mels : List μ) (i0 : Nat), ∀ it ∈ datagenItemsAux true frames dets i0 mels,
      it.frame = frames.getD 0 pix0 ∧ it.face = (dets.getD 0 (pix0, box0)).1 ∧
        it.coords = (dets.getD 0 (pix0, box0)).2 := by
  intro mels
  induction mels with
  | nil => intro i0 it hit; simp [datagenItemsAux] at hit
  | cons m ms ih =>
    intro i0 it hit
    rw [datagenItemsAux] at hit
    rcases List.mem_cons.mp hit with h | h
    · subst h
      rw [mkMItem_static]
      exact ⟨rfl, rfl, rfl⟩
    · exact ih (i0 + 1) it h

/-- C10: in generate_avatar the frame list handed to datagen is exactly the
one-element list [frames_array] (truncation by the chunk count is the
identity because the Aligner always emits at least one window), the static
flag of the configuration is set, every assembled item carries the frame
copy, face crop and coordinates of index 0, the number of output frames
equals the number of audio feature windows, and the moving-camera pairing
i % len(frames) also never selects an index other than 0 on a one-frame
list. -/
theorem generate_avatar_static_wrap {α : Type} (mel : List α) (frames_array : Pix)
    (dets : List (Pix × Box)) (preds : Nat → Pix) :
    generate_avatar_full_frames mel frames_array = [frames_array] ∧
    wav2lipStatic = true ∧
    (∀ it ∈ generate_avatar_items mel frames_array dets,
      it.frame = frames_array ∧ it.face = (dets.getD 0 (pix0, box0)).1 ∧
        it.coords = (dets.getD 0 (pix0, box0)).2) ∧
    (generate_avatar_frames mel frames_array dets preds).length =
      (generate_avatar_chunks mel).length ∧
    (∀ (s : Bool) (i : Nat), datagenIdx s 1 i = 0) := by
  have hpos := melChunks_length_pos wav2lipFps mel
  have hff : generate_avatar_full_frames mel frames_array = [frames_array] := by
    rw [generate_avatar_full_frames]
    exact List.take_of_length_le (by simp [generate_avatar_chunks]; omega)
  have hitems : ∀ it ∈ generate_avatar_items mel frames_array dets,
      it.frame = frames_array ∧ it.face = (dets.getD 0 (pix0, box0)).1 ∧
        it.coords = (dets.getD 0 (pix0, box0)).2 := by
    intro it hit
    rw [generate_avatar_items, hff] at hit
    have := datagenItemsAux_static_mem [frames_array] dets
      (generate_avatar_chunks mel) 0 it hit
    simpa using this
  refine ⟨hff, rfl, hitems, ?_, ?_⟩
  · obtain ⟨hj, _, _⟩ := batchify_spec wav2lip_batch_size (by decide)
      (generate_avatar_items mel frames_array dets) [] (by simp [wav2lip_batch_size])
    rw [List.nil_append] at hj
    rw [generate_avatar_frames, List.length_map, List.enum_length, hj,
      generate_avatar_items, datagenItems, datagenItemsAux_length]
  · intro s i
    cases s <;> simp [datagenIdx, Nat.mod_one]

/-! ### Compositor lemmas -/

lemma compositeFrom_length :
    ∀ (ps : List Pix) (bs : List Box) (heap : List Pix) (a : Nat),
      (compositeFrom heap a ps bs).length = heap.length := by
  intro ps
  induction ps with
  | nil => intro bs heap a; cases bs <;> rfl
  | cons p pt ih =>
    intro bs heap a
    cases bs with
    | nil => rfl
    | cons b bt => rw [compositeFrom, ih, List.length_set]

lemma compositeFrom_getD_lt :
    ∀ (ps : List Pix) (bs : List Box) (heap : List Pix) (a j : Nat) (d : Pix),
      j < a → (compositeFrom heap a ps bs).getD j d = heap.getD j d := by
  intro ps
  induction ps with
  | nil => intro bs heap a j d hj; cases bs <;> rfl
  | cons p pt ih =>
    intro bs heap a j d hj
    cases bs with
    | nil => rfl
    | cons b bt =>
      rw [compositeFrom, ih _ _ _ _ _ (by omega)]
      exact getD_set_ne _ _ _ _ _ (by omega)

lemma compositeFrom_getD_at :
    ∀ (ps : List Pix) (bs : List Box) (heap : List Pix) (a i : Nat),
      i < ps.length → i < bs.length → a + i < heap.length →
      (compositeFrom heap a ps bs).getD (a + i) pix0 =
        writeBox (heap.getD (a + i) pix0) (ps.getD i pix0) (bs.getD i box0) := by
  intro ps
  induction ps with
  | nil => intro bs heap a i h1 h2 h3; simp at h1
  | cons p pt ih =>
    intro bs heap a i h1 h2 h3
    cases bs with
    | nil => simp at h2
    | cons b bt =>
      cases i with
      | zero =>
        rw [compositeFrom]
        rw [compositeFrom_getD_lt pt bt _ (a + 1) (a + 0) pix0 (by omega)]
        simp only [Nat.add_zero, List.getD_cons_zero]
        exact getD_set_self _ _ _ _ (by omega)
      | succ j =>
        rw [compositeFrom]
        have ha : a + (j + 1) = a + 1 + j := by omega
        rw [ha, ih bt (heap.set a (writeBox (heap.getD a pix0) p b)) (a + 1) j
          (by simpa using h1) (by simpa using h2)
          (by rw [List.length_set]; omega)]
        rw [List.getD_cons_succ, List.getD_cons_succ]
        have hne : (heap.set a (writeBox (heap.getD a pix0) p b)).getD (a + 1 + j) pix0 =
            heap.getD (a + 1 + j) pix0 :=
          getD_set_ne heap a (a + 1 + j) _ pix0 (by omega)
        rw [hne]

/-- C4: the compositor writes each rescaled synthesized crop only into the
bounding box region of the fresh copy that datagen allocated for the item.
With the source frames at heap addresses below src.length and the per-item
copies (one per item, even when several items reference the same source
index) above them: (1) the source frames are untouched by the whole
compositing pass, so composited frames never alias them; (2) the output for
item i is exactly its own copy of source frame idxs[i] overwritten inside
its box; (3) pixels outside the box keep the value of the underlying frame;
(4) when the rescaled crop agrees with the frame on the whole box region,
compositing reproduces the frame pixel for pixel. -/
theorem compositor_no_alias (src : List Pix) (idxs : List Nat) (boxes : List Box)
    (preds : List Pix) (hp : preds.length = idxs.length)
    (hb : boxes.length = idxs.length) :
    (∀ j, j < src.length →
      (compositeFrom (src ++ idxs.map (fun t => src.getD t pix0)) src.length
          preds boxes).getD j pix0 = src.getD j pix0) ∧
    (∀ i, i < idxs.length →
      (compositeFrom (src ++ idxs.map (fun t => src.getD t pix0)) src.length
          preds boxes).getD (src.length + i) pix0 =
        writeBox (src.getD (idxs.getD i 0) pix0) (preds.getD i pix0)
          (boxes.getD i box0)) ∧
    (∀ (f p : Pix) (bx : Box) (y x : Nat),
      ¬ (bx.y1 ≤ y ∧ y < bx.y2 ∧ bx.x1 ≤ x ∧ x < bx.x2) →
      writeBox f p bx y x = f y x) ∧
    (∀ (f p : Pix) (bx : Box),
      (∀ y x, bx.y1 ≤ y ∧ y < bx.y2 ∧ bx.x1 ≤ x ∧ x < bx.x2 →
        p (y - bx.y1) (x - bx.x1) = f y x) →
      writeBox f p bx = f) := by
  refine ⟨?_, ?_, ?_, ?_⟩
  · intro j hj
    rw [compositeFrom_getD_lt preds boxes _ src.length j pix0 hj]
    exact getD_append_lt _ _ _ _ hj
  · intro i hi
    rw [compositeFrom_getD_at preds boxes _ src.length i (by omega) (by omega)
      (by rw [List.length_append, List.length_map]; omega)]
    rw [getD_append_add]
    rw [getD_map_lt _ idxs i pix0 0 hi]
  · intro f p bx y x hout
    simp only [writeBox]
    rw [if_neg hout]
  · intro f p bx hin
    funext y x
    simp only [writeBox]
    by_cases hc : bx.y1 ≤ y ∧ y < bx.y2 ∧ bx.x1 ≤ x ∧ x < bx.x2
    · rw [if_pos hc]
      exact hin y x hc
    · rw [if_neg hc]

/-- Witness for compositor_no_alias: one source frame referenced by two
items, two predictions and two boxes. -/
theorem compositor_no_alias_witness :
    (∀ j, j < ([pix0] : List Pix).length →
      (compositeFrom ([pix0] ++ ([0, 0] : List Nat).map (fun t => ([pix0] : List Pix).getD t pix0))
          ([pix0] : List Pix).length [pix0, pix0] [box0, box0]).getD j pix0 =
        ([pix0] : List Pix).getD j pix0) ∧
    (∀ i, i < ([0, 0] : List Nat).length →
      (compositeFrom ([pix0] ++ ([0, 0] : List Nat).map (fun t => ([pix0] : List Pix).getD t pix0))
          ([pix0] : List Pix).length [pix0, pix0] [box0, box0]).getD
            (([pix0] : List Pix).length + i) pix0 =
        writeBox (([pix0] : List Pix).getD (([0, 0] : List Nat).getD i 0) pix0)
          (([pix0, pix0] : List Pix).getD i pix0)
          (([box0, box0] : List Box).getD i box0)) ∧
    (∀ (f p : Pix) (bx : Box) (y x : Nat),
      ¬ (bx.y1 ≤ y ∧ y < bx.y2 ∧ bx.x1 ≤ x ∧ x < bx.x2) →
      writeBox f p bx y x = f y x) ∧
    (∀ (f p : Pix) (bx : Box),
      (∀ y x, bx.y1 ≤ y ∧ y < bx.y2 ∧ bx.x1 ≤ x ∧ x < bx.x2 →
        p (y - bx.y1) (x - bx.x1) = f y x) →
      writeBox f p bx = f) :=
  compositor_no_alias [pix0] [0, 0] [box0, box0] [pix0, pix0] rfl rfl

/-! ### End-to-end run at fps = 25 with a 200-column feature map -/

set_option maxRecDepth 100000 in
/-- C2 (counterexample): with fps = 25, feature_rate = 80, window_width = 16
and T = 200 time steps the Aligner emits 59 windows, not 10; consequently
the sequencer output has 59 frames, not 10, and its duration is 59 / 25,
not 10 / 25 = 0.4. -/
theorem endtoend_cex :
    (melChunks 25 (List.range 200)).length ≠ 10 ∧
    (generate_avatar_frames (List.range 200) pix0 [(pix0, box0)]
        (fun _ => pix0)).length ≠ 10 ∧
    generate_avatar_duration (List.range 200) pix0 [(pix0, box0)]
        (fun _ => pix0) ≠ 2 / 5 := by
  have h : (generate_avatar_frames (List.range 200) pix0 [(pix0, box0)]
      (fun _ => pix0)).length = 59 := by rfl
  refine ⟨by decide, ?_, ?_⟩
  · rw [h]; decide
  · rw [generate_avatar_duration, h]
    norm_num [wav2lipFps]

set_option maxRecDepth 100000 in
/-- C2 (amended): with fps = 25, feature_rate = 80, window_width = 16 and
T = 200 time steps the Aligner yields 58 full windows plus 1 final
overlapping window (59 windows total, each of width 16; the last full
window covers columns 182..197 while the final window covers columns
184..199, overlapping it), the sequencer output frame sequence has length
exactly 59, and its duration equals 59 / 25. -/
theorem endtoend_amended :
    (melChunks 25 (List.range 200)).length = 59 ∧
    (melChunks 25 (List.range 200)).map List.length = List.replicate 59 16 ∧
    (melChunks 25 (List.range 200)).getD 57 [] =
      ((List.range 200).drop 182).take 16 ∧
    (melChunks 25 (List.range 200)).getD 58 [] = (List.range 200).drop 184 ∧
    (generate_avatar_frames (List.range 200) pix0 [(pix0, box0)]
        (fun _ => pix0)).length = 59 ∧
    generate_avatar_duration (List.range 200) pix0 [(pix0, box0)]
        (fun _ => pix0) = 59 / 25 := by
  have h : (generate_avatar_frames (List.range 200) pix0 [(pix0, box0)]
      (fun _ => pix0)).length = 59 := by rfl
  refine ⟨by decide, by decide, by decide, by decide, h, ?_⟩
  rw [generate_avatar_duration, h]
  norm_num [wav2lipFps]
